import Mathlib

/-!
# Verification of the Prisync price-sync reconciliation core

Shallow embedding of the matching/reconciliation engine of
`bpaden91/prisync-price-sync`:

* `src/sync-prices.js` — the summary-API variant: `fetchAllPrisyncProducts`
  (paginated fetch), `findMatchingPrisyncProduct` (exact-name matcher with
  site-summary price extraction) and `updateDatabasePrices` (sequential
  reconciliation driver).
* `src/unnamed/part_001` — the URL-search variant: `cleanProductUrl`
  (tracking-parameter stripper) and its driver's price extraction
  (`prisyncData.price || prisyncData.current_price || prisyncData.data?.price`).

JavaScript values that can be absent (`undefined`/`null`) are modelled with
`Option`; JS truthiness of the relevant value shapes is modelled explicitly.
Numbers are modelled as rationals (`ℚ`); the float-specific values of JS
(`NaN`, infinities) are represented by `Option ℚ` where the code can only
observe them through truthiness and `> 0` comparisons, both of which reject
`NaN`.
-/

namespace PriceSync

/-- Model of the platform's `parseFloat`, restricted to plain signed decimal
literals (optional `-`/`+` sign, digit run, optional `.` plus digit run).
`none` stands for `NaN`. The JS builtin additionally skips leading
whitespace, parses numeric prefixes of longer strings, and accepts exponent
and `Infinity` forms; none of the strings appearing in this development use
those forms, and every theorem below that depends on a concrete parse uses
inputs on which this model and the builtin agree. -/
def digitsVal : List Char → Option Nat
  | [] => none
  | cs => if cs.all Char.isDigit then
      some (cs.foldl (fun n c => 10 * n + (c.toNat - 48)) 0)
    else none

def parseDecimal (s : String) : Option ℚ :=
  let cs := s.data
  let neg : Bool := cs.head? = some '-'
  let body := if cs.head? = some '-' ∨ cs.head? = some '+' then cs.tail else cs
  let intPart := body.takeWhile (fun c => c ≠ '.')
  let rest := body.dropWhile (fun c => c ≠ '.')
  let mk : Int → Nat → ℚ := fun num den =>
    Rat.divInt (if neg then -num else num) den
  match rest with
  | [] => (digitsVal intPart).map (fun n => mk n 1)
  | _ :: frac =>
    match digitsVal intPart, digitsVal frac with
    | some i, some f => some (mk ((i : Int) * 10 ^ frac.length + f) (10 ^ frac.length))
    | _, _ => none

/-- A remote product as consumed by `findMatchingPrisyncProduct`
(`src/sync-prices.js`): a `name` field (absent ⇒ `undefined`, modelled
`none`) and a `summary` object (absent/null ⇒ `none`) mapping site keys, in
insertion order, to site objects whose `price` field is an optional string
(`none` models an absent or null price field). Site values are modelled as
always being objects, so the `prisyncProduct.summary[site] &&` half of the
source's guard is always true and only the `….price` truthiness is modelled
(an empty string is falsy). -/
structure PrisyncProduct where
  name : Option String
  summary : Option (List (String × Option String))
deriving Repr, DecidableEq

/-- `src/sync-prices.js` lines 70–81: scan `Object.keys(summary)` in order and
take the first site whose `price` field is truthy (present and a non-empty
string), breaking there. -/
def firstTruthyPrice : List (String × Option String) → Option String
  | [] => none
  | (_, none) :: rest => firstTruthyPrice rest
  | (_, some s) :: rest => if s = "" then firstTruthyPrice rest else some s

/-- The price extracted for an exact-name match: `parseFloat` of the first
truthy site price, `none` when the summary is absent, no site has a truthy
price, or the parse yields `NaN`. Note the source breaks out of the site loop
at the first truthy price field even if it fails to parse: it does not try
later sites. -/
def extractPrice (p : PrisyncProduct) : Option ℚ :=
  match p.summary with
  | none => none
  | some entries => (firstTruthyPrice entries).bind parseDecimal

/-- JS `String.prototype.toLowerCase` (ASCII case mapping), character by
character. -/
def jsToLower (s : String) : String := ⟨s.data.map Char.toLower⟩

/-- JS `String.prototype.trim`: drop leading and trailing whitespace. -/
def jsTrim (s : String) : String :=
  ⟨((s.data.dropWhile Char.isWhitespace).reverse.dropWhile Char.isWhitespace).reverse⟩

/-- JS `s.toLowerCase().trim()` as applied to both names in
`findMatchingPrisyncProduct` (lines 60–61). -/
def normName (s : String) : String := jsTrim (jsToLower s)

/-- Successful result shape of `findMatchingPrisyncProduct`:
`{ product, price }`. -/
structure MatchResult where
  product : PrisyncProduct
  price : ℚ
deriving Repr, DecidableEq

/-- `findMatchingPrisyncProduct(databaseProductName, prisyncProducts)`
(`src/sync-prices.js` lines 56–97). The loop dereferences
`prisyncProduct.name.toLowerCase()` and then
`databaseProductName.toLowerCase()` for each product; an absent name on
either side raises a `TypeError`, modelled as `.error ()`. On the first
product whose normalized name equals the normalized database name, the price
is extracted; `if (price && price > 0)` returns `{product, price}`, otherwise
the function returns `null` (`.ok none`) without scanning further. If no
product's name matches, the loop falls through to `return null`. -/
def findMatchingPrisyncProduct (databaseProductName : Option String) :
    List PrisyncProduct → Except Unit (Option MatchResult)
  | [] => .ok none
  | p :: rest =>
    match p.name with
    | none => .error ()
    | some nm =>
      match databaseProductName with
      | none => .error ()
      | some dbn =>
        if normName nm = normName dbn then
          match extractPrice p with
          | some q => if 0 < q then .ok (some ⟨p, q⟩) else .ok none
          | none => .ok none
        else findMatchingPrisyncProduct databaseProductName rest

/-! ## Remote catalog fetcher (`fetchAllPrisyncProducts`, lines 14–54) -/

/-- One page response of the Prisync summary list endpoint, as observed by the
fetcher: `response.ok`, `data.results || []` (the `|| []` default is folded
into `results` being a plain list), and the truthiness of `data.nextURL`. -/
structure PageResponse (α : Type) where
  ok : Bool
  results : List α
  nextURL : Bool

/-- The `while (hasMore)` loop of `fetchAllPrisyncProducts`: `server` maps a
`startFrom` offset to that page's response. Each round appends the page's
results, recomputes `hasMore = data.nextURL && products.length === 100`, and
advances `startFrom` by 100. A non-ok response throws (`.error ()`). `fuel`
bounds the number of iterations so the loop is a total function; `none` means
the loop did not finish within `fuel` rounds. -/
def fetchAllGo {α : Type} (server : Nat → PageResponse α) :
    Nat → Nat → List α → Option (Except Unit (List α))
  | 0, _, _ => none
  | fuel + 1, startFrom, acc =>
    let resp := server startFrom
    if resp.ok then
      let acc2 := acc ++ resp.results
      if resp.nextURL && resp.results.length == 100 then
        fetchAllGo server fuel (startFrom + 100) acc2
      else some (.ok acc2)
    else some (.error ())

/-- `fetchAllPrisyncProducts()`: run the pagination loop from offset 0 with an
empty accumulator. -/
def fetchAllPrisyncProducts {α : Type} (server : Nat → PageResponse α)
    (fuel : Nat) : Option (Except Unit (List α)) :=
  fetchAllGo server fuel 0 []

/-! ## URL-search variant (`src/unnamed/part_001`) -/

/-- A JavaScript value as observed by the price extraction of the URL-search
variant: `null`, `undefined`, a (finite) number, or a string. -/
inductive JsVal where
  | vNull
  | vUndef
  | vNum (q : ℚ)
  | vStr (s : String)
deriving Repr, DecidableEq

/-- JS truthiness of a `JsVal`: `null`/`undefined` are falsy, a number is
truthy iff non-zero, a string is truthy iff non-empty. -/
def truthy : JsVal → Bool
  | .vNull => false
  | .vUndef => false
  | .vNum q => q ≠ 0
  | .vStr s => s ≠ ""

/-- JS `a || b`: `a` if truthy, otherwise `b`. -/
def jsOr (a b : JsVal) : JsVal := if truthy a then a else b

/-- The fields of a Prisync search response that the URL-search variant's
driver reads: `prisyncData.price`, `prisyncData.current_price`, and
`prisyncData.data?.price` (the optional chain collapses an absent `data`
object to `undefined`). -/
structure PrisyncData where
  price : JsVal
  current_price : JsVal
  data_price : JsVal
deriving Repr, DecidableEq

/-- `src/unnamed/part_001` line 92:
`prisyncData.price || prisyncData.current_price || prisyncData.data?.price`. -/
def extractCurrentPrice (d : PrisyncData) : JsVal :=
  jsOr d.price (jsOr d.current_price d.data_price)

/-- Lines 94–111: the write issued for one record by the URL-search variant's
driver. `if (currentPrice)` guards the update; when truthy, the extracted
value is written verbatim as `normal_retail_price` (together with the
timestamp). `none` means no write is issued for the record. -/
def v1WriteFor (d : PrisyncData) : Option JsVal :=
  if truthy (extractCurrentPrice d) then some (extractCurrentPrice d) else none

/-- Whether a `JsVal` is a finite strictly positive number (the spec's
requirement on any written price). -/
def jsFinitePositive : JsVal → Bool
  | .vNum q => decide (0 < q)
  | _ => false

/-! ## URL normalizer (`cleanProductUrl`, `src/unnamed/part_001` lines 13–33) -/

/-- The observable components of a platform `URL` object that
`cleanProductUrl` reads or writes: scheme, host, path, and the ordered
multiset of query parameters (`searchParams`). Components the function never
touches (port, fragment, credentials) are omitted. -/
structure UrlObj where
  scheme : String
  host : String
  path : String
  searchParams : List (String × String)
deriving Repr, DecidableEq

/-- The fixed denylist of tracking parameters (lines 18–22). -/
def trackingParams : List String :=
  ["country", "source", "sv1", "sv_campaign_id", "awc", "sscid",
   "utm_source", "utm_medium", "utm_campaign", "utm_content", "utm_term",
   "fbclid", "gclid", "ref", "affiliate"]

/-- `urlObj.searchParams.delete(name)`: remove every query parameter with the
given name, keeping the remaining parameters in order. -/
def deleteParam (ps : List (String × String)) (name : String) :
    List (String × String) :=
  ps.filter (fun kv => kv.1 ≠ name)

/-- `trackingParams.forEach(param => urlObj.searchParams.delete(param))`
applied to a parsed URL object. -/
def cleanUrlObj (u : UrlObj) : UrlObj :=
  { u with searchParams := trackingParams.foldl deleteParam u.searchParams }

/-- `cleanProductUrl(url)`: parse the URL; on failure (`new URL` throws) the
original string is returned unchanged; on success the tracking parameters are
deleted and the object is serialized back. The platform's `URL` parser and
serializer are modelled abstractly by the pair `parse`/`render` over an
arbitrary representation type `σ`; theorems that need the platform guarantee
that parsing a serialized object yields that object back take it as an
explicit hypothesis. -/
def cleanProductUrl {σ : Type} (parse : σ → Option UrlObj) (render : UrlObj → σ)
    (url : σ) : σ :=
  match parse url with
  | none => url
  | some u => render (cleanUrlObj u)

/-! ## Reconciliation driver (`updateDatabasePrices`, `src/sync-prices.js`
lines 99–160) -/

/-- A row of the `bags` table as selected by the driver:
`id, product_link, normal_retail_price, bag_name` (the last two nullable). -/
structure LocalRecord where
  id : Nat
  product_link : Option String
  bag_name : Option String
deriving Repr, DecidableEq

/-- The per-record failure causes of the driver, standing in for the
`error.message` strings the source builds: the `TypeError` thrown by the
matcher on a missing name, the `No matching product found in Prisync for
URL: …` message (which interpolates the record's link), and a store-supplied
message for a rejected update. -/
inductive FailReason where
  | typeErr
  | noMatch (link : Option String)
  | updateErr (m : String)
deriving Repr, DecidableEq

/-- One element of `results.errors`: `{product_id, product_link, error}`. -/
structure ErrEntry where
  product_id : Nat
  product_link : Option String
  reason : FailReason
deriving Repr, DecidableEq

/-- The driver's `results` accumulator: `{successful, failed, errors}`. -/
structure SyncResults where
  successful : Nat
  failed : Nat
  errors : List ErrEntry
deriving Repr, DecidableEq

/-- The two columns of a `bags` row that the driver writes:
`normal_retail_price` and `last_price_update`. -/
structure StoredRow where
  normal_retail_price : Option ℚ
  last_price_update : Option String
deriving Repr, DecidableEq

/-- The local store, keyed by record id. -/
abbrev Store : Type := Nat → StoredRow

/-- The `catch` block of the driver's loop (lines 148–156): increment
`failed` and push one `{product_id, product_link, error}` entry. -/
def pushFail (res : SyncResults) (r : LocalRecord) (reason : FailReason) :
    SyncResults :=
  { res with
    failed := res.failed + 1
    errors := res.errors ++ [⟨r.id, r.product_link, reason⟩] }

/-- One iteration of the driver's `for` loop (lines 123–157) over the pair
(results accumulator, store state). `upd` models the store's response to
`supabase.from('bags').update(…).eq('id', product.id)`: `none` for an
accepted write (which then sets both columns at that id), `some msg` for a
rejected one (`updateError` is thrown and caught). An `.error` from the
matcher (the unguarded `.toLowerCase()` `TypeError`) is caught by the same
`catch`. `if (match && match.price)` requires the match object and a truthy
(non-zero) price; its `else` branch throws the no-match error. -/
def runStep (catalog : List PrisyncProduct) (upd : Nat → ℚ → Option String)
    (now : String) (acc : SyncResults × Store) (r : LocalRecord) :
    SyncResults × Store :=
  match findMatchingPrisyncProduct r.bag_name catalog with
  | .error _ => (pushFail acc.1 r .typeErr, acc.2)
  | .ok none => (pushFail acc.1 r (.noMatch r.product_link), acc.2)
  | .ok (some m) =>
    if m.price ≠ 0 then
      match upd r.id m.price with
      | some emsg => (pushFail acc.1 r (.updateErr emsg), acc.2)
      | none =>
        ({ acc.1 with successful := acc.1.successful + 1 },
         fun i => if i = r.id then ⟨some m.price, some now⟩ else acc.2 i)
    else (pushFail acc.1 r (.noMatch r.product_link), acc.2)

/-- The driver's loop over a list of (already selected) records, starting
from `results = {successful: 0, failed: 0, errors: []}` and a given store
state. -/
def processRecords (catalog : List PrisyncProduct)
    (upd : Nat → ℚ → Option String) (now : String)
    (records : List LocalRecord) (st0 : Store) : SyncResults × Store :=
  records.foldl (runStep catalog upd now) (⟨0, 0, []⟩, st0)

/-- `updateDatabasePrices`: the select
`.not('product_link', 'is', null)` keeps exactly the rows whose
`product_link` is non-null, and the loop then processes them in order. -/
def updateDatabasePricesRun (allRecords : List LocalRecord)
    (catalog : List PrisyncProduct) (upd : Nat → ℚ → Option String)
    (now : String) (st0 : Store) : SyncResults × Store :=
  processRecords catalog upd now
    (allRecords.filter (fun r => r.product_link.isSome)) st0

/-- Specification-level restatement of one loop iteration's outcome for a
record: `none` for a counted success, `some reason` for a counted failure.
Mirrors the branch structure of `runStep`. -/
def recordOutcome (catalog : List PrisyncProduct)
    (upd : Nat → ℚ → Option String) (r : LocalRecord) : Option FailReason :=
  match findMatchingPrisyncProduct r.bag_name catalog with
  | .error _ => some .typeErr
  | .ok none => some (.noMatch r.product_link)
  | .ok (some m) =>
    if m.price ≠ 0 then
      match upd r.id m.price with
      | some emsg => some (.updateErr emsg)
      | none => none
    else some (.noMatch r.product_link)

/-- The price a record's iteration successfully writes (`none` when no
accepted write happens for it: no match, no usable price, or the store
rejected the update). -/
def recordWrite (catalog : List PrisyncProduct)
    (upd : Nat → ℚ → Option String) (r : LocalRecord) : Option ℚ :=
  match findMatchingPrisyncProduct r.bag_name catalog with
  | .ok (some m) =>
    if m.price ≠ 0 then
      match upd r.id m.price with
      | some _ => none
      | none => some m.price
    else none
  | _ => none

/-- The price a record's iteration submits to the store, whether or not the
store accepts it (the write issued at lines 130–136). -/
def attemptedWrite (catalog : List PrisyncProduct) (r : LocalRecord) :
    Option ℚ :=
  match findMatchingPrisyncProduct r.bag_name catalog with
  | .ok (some m) => if m.price ≠ 0 then some m.price else none
  | _ => none

/-- Apply a record's outcome to the results accumulator (shape of `runStep`'s
first component). -/
def applyOutcome (res : SyncResults) (r : LocalRecord) :
    Option FailReason → SyncResults
  | some reason => pushFail res r reason
  | none => { res with successful := res.successful + 1 }

/-- Apply a record's accepted write (if any) to the store (shape of
`runStep`'s second component). -/
def applyWrite (st : Store) (r : LocalRecord) (now : String) :
    Option ℚ → Store
  | some q => fun i => if i = r.id then ⟨some q, some now⟩ else st i
  | none => st

/-- The store state after the loop, record by record. -/
def applyWrites (catalog : List PrisyncProduct)
    (upd : Nat → ℚ → Option String) (now : String) (st : Store)
    (records : List LocalRecord) : Store :=
  records.foldl (fun st r => applyWrite st r now (recordWrite catalog upd r)) st

/-- The error entry a failing record contributes. -/
def errEntryFor (catalog : List PrisyncProduct)
    (upd : Nat → ℚ → Option String) (r : LocalRecord) : Option ErrEntry :=
  (recordOutcome catalog upd r).map (fun reason => ⟨r.id, r.product_link, reason⟩)

/-! ## Concrete fixtures used in witnesses and counterexamples -/

/-- A remote product named `"a"` whose summary has no priced site. -/
def samename_priceless : PrisyncProduct := ⟨some "a", some []⟩

/-- A remote product named `"a"` with one positively priced site. -/
def samename_priced : PrisyncProduct :=
  ⟨some "a", some [("site1", some "5")]⟩

/-- A remote product with an unrelated name. -/
def pother : PrisyncProduct := ⟨some "b", none⟩

/-- A remote product whose trimmed name is blank but which carries a price. -/
def blanknamed : PrisyncProduct := ⟨some " ", some [("site1", some "5")]⟩

/-- A local record named `"a"`. -/
def rec1 : LocalRecord := ⟨1, some "link", some "a"⟩

/-- A three-page server: two full pages, then a 42-item page whose `nextURL`
flag is (erroneously) still set, then empty pages. -/
def serverEx : Nat → PageResponse Nat := fun s =>
  if s = 0 then ⟨true, List.range 100, true⟩
  else if s = 100 then ⟨true, (List.range 100).map (fun n => n + 100), true⟩
  else if s = 200 then ⟨true, (List.range 42).map (fun n => n + 200), true⟩
  else ⟨true, [], false⟩

/-- A parsed URL with one denylisted and one ordinary query parameter. -/
def urlFix : UrlObj :=
  ⟨"https", "example.com", "/p", [("utm_source", "x"), ("color", "red")]⟩

/-! ## Matcher lemmas -/

example : parseDecimal "129.99" = some (Rat.divInt 12999 100) := by decide

example : parseDecimal "abc" = none := by decide

example : normName "  Classic Tote " = "classic tote" := by decide

/-- Products whose (string) names do not normalize to the database name are
scanned past without affecting the result. -/
lemma findMatching_skip (d : String) (pre rest : List PrisyncProduct)
    (hpre : ∀ p' ∈ pre, ∃ n', p'.name = some n' ∧ normName n' ≠ normName d) :
    findMatchingPrisyncProduct (some d) (pre ++ rest) =
      findMatchingPrisyncProduct (some d) rest := by
  induction pre with
  | nil => rfl
  | cons p ps ih =>
    obtain ⟨n', hn, hne⟩ := hpre p (List.mem_cons_self _ _)
    have hrec := ih (fun p' hp' => hpre p' (List.mem_cons_of_mem _ hp'))
    simp [findMatchingPrisyncProduct, hn, hne, hrec]

/-- Any match returned by the matcher carries a strictly positive price: the
`if (price && price > 0)` guard. -/
lemma findMatching_pos (d : Option String) (catalog : List PrisyncProduct)
    (m : MatchResult)
    (h : findMatchingPrisyncProduct d catalog = .ok (some m)) : 0 < m.price := by
  induction catalog with
  | nil => simp [findMatchingPrisyncProduct] at h
  | cons p ps ih =>
    cases hn : p.name with
    | none => simp [findMatchingPrisyncProduct, hn] at h
    | some nm =>
      cases d with
      | none => simp [findMatchingPrisyncProduct, hn] at h
      | some dbn =>
        simp only [findMatchingPrisyncProduct, hn] at h
        by_cases he : normName nm = normName dbn
        · rw [if_pos he] at h
          cases hp : extractPrice p with
          | none => rw [hp] at h; simp at h
          | some q =>
            rw [hp] at h
            dsimp only at h
            by_cases hq : 0 < q
            · rw [if_pos hq] at h
              simp only [Except.ok.injEq, Option.some.injEq] at h
              rw [← h]
              exact hq
            · rw [if_neg hq] at h; simp at h
        · rw [if_neg he] at h
          exact ih h

/-! ## Claim theorems: the exact-name matcher -/

/-- C2, counterexample. The claim says that among several remote products with
the same normalized name the matcher returns the first one carrying a positive
price, skipping same-named products without one. In the code the first
same-named product ends the scan unconditionally (`return null` at line 90):
with a priceless product named `"a"` listed before a positively priced product
also named `"a"`, the matcher returns no match even though the later product
has price 5. -/
theorem c2_counterexample :
    extractPrice samename_priced = some 5 ∧
    findMatchingPrisyncProduct (some "a") [samename_priceless, samename_priced] =
      .ok none :=
  ⟨by decide, rfl⟩

/-- C2, amended: the matcher considers only the first product in catalog
order whose normalized name equals the normalized local name; it returns that
product with its extracted price when the price is strictly positive, and
otherwise returns no match without scanning any later same-named product. -/
theorem c2_amended (d nm : String) (pre post : List PrisyncProduct)
    (p : PrisyncProduct)
    (hpre : ∀ p' ∈ pre, ∃ n', p'.name = some n' ∧ normName n' ≠ normName d)
    (hname : p.name = some nm) (hmatch : normName nm = normName d) :
    findMatchingPrisyncProduct (some d) (pre ++ p :: post) =
      match extractPrice p with
      | some q => if 0 < q then .ok (some ⟨p, q⟩) else .ok none
      | none => .ok none := by
  rw [findMatching_skip d pre _ hpre]
  simp only [findMatchingPrisyncProduct, hname]
  rw [if_pos hmatch]

/-- Witness for `c2_amended` at a concrete catalog: the first `"a"`-named
product is priceless, so the match fails even though a priced `"a"` follows. -/
theorem c2_witness :
    (∀ p' ∈ [pother], ∃ n', p'.name = some n' ∧ normName n' ≠ normName "a") ∧
    samename_priceless.name = some "a" ∧ normName "a" = normName "a" ∧
    findMatchingPrisyncProduct (some "a")
      ([pother] ++ samename_priceless :: [samename_priced]) = .ok none := by
  have hpre : ∀ p' ∈ [pother], ∃ n', p'.name = some n' ∧ normName n' ≠ normName "a" := by
    intro p' hp'
    rw [List.mem_singleton] at hp'
    subst hp'
    exact ⟨"b", rfl, by decide⟩
  refine ⟨hpre, rfl, rfl, ?_⟩
  exact (c2_amended "a" "a" [pother] [samename_priced] samename_priceless hpre rfl
    rfl).trans rfl

/-- C5 (confirmed): when the first remote product whose normalized name
equals the local name has no site entry with a usable positive price, the
match attempt returns no match — it neither falls through to any weaker
strategy (the code has none) nor scans any further candidate. -/
theorem c5_priceless_match (d nm : String) (pre post : List PrisyncProduct)
    (p : PrisyncProduct)
    (hpre : ∀ p' ∈ pre, ∃ n', p'.name = some n' ∧ normName n' ≠ normName d)
    (hname : p.name = some nm) (hmatch : normName nm = normName d)
    (hnoprice : ∀ q, extractPrice p = some q → ¬ 0 < q) :
    findMatchingPrisyncProduct (some d) (pre ++ p :: post) = .ok none := by
  rw [findMatching_skip d pre _ hpre]
  simp only [findMatchingPrisyncProduct, hname]
  rw [if_pos hmatch]
  cases hp : extractPrice p with
  | none => rfl
  | some q =>
    dsimp only
    rw [if_neg (hnoprice q hp)]

/-- Witness for `c5_priceless_match`: a priceless `"a"`-named product placed
before a priced one still makes the whole attempt fail. -/
theorem c5_witness :
    samename_priceless.name = some "a" ∧
    extractPrice samename_priceless = none ∧
    findMatchingPrisyncProduct (some "a")
      ([] ++ samename_priceless :: [samename_priced]) = .ok none := by
  refine ⟨rfl, by decide, ?_⟩
  exact c5_priceless_match "a" "a" [] [samename_priced] samename_priceless
    (by intro p' hp'; cases hp') rfl rfl
    (by intro q hq; rw [show extractPrice samename_priceless = none from rfl] at hq; cases hq)

/-- C8, counterexample. The claim says a record with a blank normalized name
never matches and is excluded before matching. The code performs no blank
check: a local name normalizing to `""` matches a remote product whose name
also normalizes to `""`, and the match is returned with that product's
price. -/
theorem c8_counterexample :
    normName "  " = "" ∧ normName " " = "" ∧
    findMatchingPrisyncProduct (some "  ") [blanknamed] =
      .ok (some ⟨blanknamed, 5⟩) :=
  ⟨rfl, rfl, rfl⟩

/-- C8, amended: the code excludes a record before matching only when its
`product_link` is null; a blank normalized local name is not excluded and
matches any remote product whose normalized name is also blank. It yields no
match provided every remote product's normalized name is non-blank. -/
theorem c8_amended (d : String) (catalog : List PrisyncProduct)
    (hd : normName d = "")
    (hcat : ∀ p ∈ catalog, ∃ n', p.name = some n' ∧ normName n' ≠ "") :
    findMatchingPrisyncProduct (some d) catalog = .ok none := by
  have hcat2 : ∀ p ∈ catalog, ∃ n', p.name = some n' ∧ normName n' ≠ normName d := by
    intro p hp
    obtain ⟨n', hn, hne⟩ := hcat p hp
    exact ⟨n', hn, by rw [hd]; exact hne⟩
  calc findMatchingPrisyncProduct (some d) catalog
      = findMatchingPrisyncProduct (some d) (catalog ++ []) := by
        rw [List.append_nil]
    _ = findMatchingPrisyncProduct (some d) [] := findMatching_skip d catalog [] hcat2
    _ = .ok none := rfl

/-- Witness for `c8_amended`: the blank name `"  "` finds no match in a
catalog whose only product has the non-blank name `"b"`. -/
theorem c8_witness :
    normName "  " = "" ∧
    (∀ p ∈ [pother], ∃ n', p.name = some n' ∧ normName n' ≠ "") ∧
    findMatchingPrisyncProduct (some "  ") [pother] = .ok none := by
  have hcat : ∀ p ∈ [pother], ∃ n', p.name = some n' ∧ normName n' ≠ "" := by
    intro p hp
    rw [List.mem_singleton] at hp
    subst hp
    exact ⟨"b", rfl, by decide⟩
  exact ⟨rfl, hcat, c8_amended "  " [pother] rfl hcat⟩

/-- C10 (confirmed): the matcher is total when every remote product's `name`
is a present string (and the local name is one), and a catalog containing a
product with an absent name makes `prisyncProduct.name.toLowerCase()` throw
instead of producing a no-match result. -/
theorem c10_name_totality :
    (∀ (d : String) (catalog : List PrisyncProduct),
        (∀ p ∈ catalog, p.name.isSome) →
        ∃ r, findMatchingPrisyncProduct (some d) catalog = .ok r) ∧
    findMatchingPrisyncProduct (some "x") [⟨none, none⟩] = .error () := by
  constructor
  · intro d catalog hcat
    induction catalog with
    | nil => exact ⟨none, rfl⟩
    | cons p ps ih =>
      obtain ⟨nm, hn⟩ := Option.isSome_iff_exists.mp (hcat p (List.mem_cons_self _ _))
      by_cases he : normName nm = normName d
      · cases hp : extractPrice p with
        | none =>
          exact ⟨none, by
            simp only [findMatchingPrisyncProduct, hn]
            rw [if_pos he, hp]⟩
        | some q =>
          by_cases hq : 0 < q
          · exact ⟨some ⟨p, q⟩, by
              simp only [findMatchingPrisyncProduct, hn]
              rw [if_pos he, hp]
              dsimp only
              rw [if_pos hq]⟩
          · exact ⟨none, by
              simp only [findMatchingPrisyncProduct, hn]
              rw [if_pos he, hp]
              dsimp only
              rw [if_neg hq]⟩
      · obtain ⟨r, hr⟩ := ih (fun p' hp' => hcat p' (List.mem_cons_of_mem _ hp'))
        exact ⟨r, by
          simp only [findMatchingPrisyncProduct, hn]
          rw [if_neg he]
          exact hr⟩
  · rfl

/-- Witness for `c10_name_totality`: on an all-string-named catalog the
matcher returns without throwing. -/
theorem c10_witness :
    (∀ p ∈ [pother], p.name.isSome) ∧
    ∃ r, findMatchingPrisyncProduct (some "x") [pother] = .ok r :=
  ⟨by decide, c10_name_totality.1 "x" [pother] (by decide)⟩

/-! ## Claim theorems: the paginated fetcher -/

/-- The pagination loop, from an arbitrary offset and accumulator: if pages
`0..K-1` (at offsets `start, start+100, …`) are ok, full, and flagged, and
page `K` is ok but either unflagged or not exactly full, the loop returns the
accumulator followed by the concatenation of pages `0..K` in order. -/
lemma fetchAllGo_spec {α : Type} (server : Nat → PageResponse α) :
    ∀ (K fuel start : Nat) (acc : List α),
      (∀ i, i ≤ K → (server (start + 100 * i)).ok = true) →
      (∀ i, i < K → (server (start + 100 * i)).nextURL = true ∧
          (server (start + 100 * i)).results.length = 100) →
      ((server (start + 100 * K)).nextURL = false ∨
          (server (start + 100 * K)).results.length ≠ 100) →
      K < fuel →
      fetchAllGo server fuel start acc =
        some (.ok (acc ++ ((List.range (K + 1)).map
          (fun i => (server (start + 100 * i)).results)).join)) := by
  intro K
  induction K with
  | zero =>
    intro fuel start acc hok hfull hstop hfuel
    cases fuel with
    | zero => omega
    | succ f =>
      have h0 : (server start).ok = true := by
        have := hok 0 (Nat.le_refl 0)
        simpa using this
      have hstop0 : (server start).nextURL = false ∨
          (server start).results.length ≠ 100 := by
        simpa using hstop
      rw [fetchAllGo, if_pos h0]
      have hcond : ((server start).nextURL && (server start).results.length == 100) = false := by
        rcases hstop0 with hflag | hlen
        · rw [hflag]; rfl
        · rw [Bool.and_eq_false_iff]
          right
          simpa using hlen
      rw [hcond]
      dsimp only
      simp [List.range_succ]
  | succ K ih =>
    intro fuel start acc hok hfull hstop hfuel
    cases fuel with
    | zero => omega
    | succ f =>
      have h0 : (server start).ok = true := by
        have := hok 0 (Nat.zero_le _)
        simpa using this
      have hfull0 := hfull 0 (Nat.succ_pos K)
      rw [fetchAllGo, if_pos h0]
      have hcond : ((server start).nextURL && (server start).results.length == 100) = true := by
        have h1 : (server start).nextURL = true := by simpa using hfull0.1
        have h2 : (server start).results.length = 100 := by simpa using hfull0.2
        rw [h1, h2]
        rfl
      rw [hcond]
      dsimp only
      rw [if_pos rfl]
      have hshift : ∀ i : Nat, start + 100 + 100 * i = start + 100 * (i + 1) := by
        intro i
        ring
      have hrec := ih f (start + 100) (acc ++ (server start).results)
        (fun i hi => by rw [hshift i]; exact hok (i + 1) (Nat.succ_le_succ hi))
        (fun i hi => by rw [hshift i]; exact hfull (i + 1) (Nat.succ_lt_succ hi))
        (by rw [hshift K]; exact hstop)
        (Nat.lt_of_succ_lt_succ hfuel)
      rw [hrec]
      have hmap : (List.range (K + 1)).map
            (fun i => (server (start + 100 + 100 * i)).results) =
          (List.range (K + 1)).map
            ((fun i => (server (start + 100 * i)).results) ∘ Nat.succ) := by
        apply List.map_congr_left
        intro i _
        simp only [Function.comp_apply, Nat.succ_eq_add_one]
        rw [hshift i]
      have hjoin : ((List.range (K + 1 + 1)).map
            (fun i => (server (start + 100 * i)).results)).join =
          (server (start + 100 * 0)).results ++
            ((List.range (K + 1)).map
              ((fun i => (server (start + 100 * i)).results) ∘ Nat.succ)).join := by
        rw [List.range_succ_eq_map]
        simp [List.map_cons, List.map_map]
      rw [hjoin, ← hmap]
      simp [List.append_assoc]

/-- C3 (confirmed): the fetcher requests pages at offsets `0, 100, 200, …`,
continues exactly while the page's `nextURL` flag is truthy AND the page has
exactly 100 items, treats any other page (in particular a shorter one, even
with the flag set) as final, and returns the concatenation of all fetched
pages in order. -/
theorem c3_pagination {α : Type} (server : Nat → PageResponse α)
    (K fuel : Nat)
    (hok : ∀ i, i ≤ K → (server (100 * i)).ok = true)
    (hfull : ∀ i, i < K → (server (100 * i)).nextURL = true ∧
        (server (100 * i)).results.length = 100)
    (hstop : (server (100 * K)).nextURL = false ∨
        (server (100 * K)).results.length ≠ 100)
    (hfuel : K < fuel) :
    fetchAllPrisyncProducts server fuel =
      some (.ok (((List.range (K + 1)).map
        (fun i => (server (100 * i)).results)).join)) := by
  have h := fetchAllGo_spec server K fuel 0 []
    (fun i hi => by rw [Nat.zero_add]; exact hok i hi)
    (fun i hi => by rw [Nat.zero_add]; exact hfull i hi)
    (by rw [Nat.zero_add]; exact hstop)
    hfuel
  rw [fetchAllPrisyncProducts, h]
  simp

set_option maxRecDepth 100000 in
/-- Witness for `c3_pagination`: three pages of sizes 100, 100, 42, the last
with its more-data flag erroneously still set, concatenate to 242 products
and the fetch stops there. -/
theorem c3_witness :
    (∀ i, i ≤ 2 → (serverEx (100 * i)).ok = true) ∧
    (∀ i, i < 2 → (serverEx (100 * i)).nextURL = true ∧
        (serverEx (100 * i)).results.length = 100) ∧
    (serverEx (100 * 2)).nextURL = true ∧
    ((serverEx (100 * 2)).nextURL = false ∨
        (serverEx (100 * 2)).results.length ≠ 100) ∧
    fetchAllPrisyncProducts serverEx 3 =
      some (.ok (((List.range 3).map
        (fun i => (serverEx (100 * i)).results)).join)) ∧
    (((List.range 3).map (fun i => (serverEx (100 * i)).results)).join).length = 242 :=
  ⟨by decide, by decide, by decide, by decide,
   c3_pagination serverEx 2 3 (by decide) (by decide) (by decide) (by decide),
   by decide⟩

/-! ## Driver lemmas -/

/-- One loop iteration equals: apply the record's outcome to the results and
the record's accepted write (if any) to the store. -/
lemma runStep_char (catalog : List PrisyncProduct)
    (upd : Nat → ℚ → Option String) (now : String) (res : SyncResults)
    (st : Store) (r : LocalRecord) :
    runStep catalog upd now (res, st) r =
      (applyOutcome res r (recordOutcome catalog upd r),
       applyWrite st r now (recordWrite catalog upd r)) := by
  cases hm : findMatchingPrisyncProduct r.bag_name catalog with
  | error e => simp [runStep, recordOutcome, recordWrite, applyOutcome, applyWrite, hm]
  | ok o =>
    cases o with
    | none => simp [runStep, recordOutcome, recordWrite, applyOutcome, applyWrite, hm]
    | some m =>
      by_cases hp : m.price ≠ 0
      · cases hu : upd r.id m.price with
        | none =>
          simp [runStep, recordOutcome, recordWrite, applyOutcome, applyWrite, hm, hp, hu]
        | some e =>
          simp [runStep, recordOutcome, recordWrite, applyOutcome, applyWrite, hm, hp, hu]
      · simp [runStep, recordOutcome, recordWrite, applyOutcome, applyWrite, hm, hp]

/-- Closed form of the driver's loop: totals, error list, and final store. -/
lemma processRecords_go (catalog : List PrisyncProduct)
    (upd : Nat → ℚ → Option String) (now : String) :
    ∀ (records : List LocalRecord) (res : SyncResults) (st : Store),
      records.foldl (runStep catalog upd now) (res, st) =
        ({ successful := res.successful +
             records.countP (fun r => (recordOutcome catalog upd r).isNone),
           failed := res.failed +
             records.countP (fun r => (recordOutcome catalog upd r).isSome),
           errors := res.errors ++ records.filterMap (errEntryFor catalog upd) },
         applyWrites catalog upd now st records) := by
  intro records
  induction records with
  | nil =>
    intro res st
    simp [applyWrites]
  | cons r rs ih =>
    intro res st
    rw [List.foldl_cons, runStep_char, ih]
    rw [Prod.ext_iff]
    constructor
    · cases h : recordOutcome catalog upd r with
      | none =>
        simp [applyOutcome, h, List.countP_cons, errEntryFor]
        omega
      | some reason =>
        simp [applyOutcome, pushFail, h, List.countP_cons, errEntryFor]
        omega
    · rfl

/-- Success and failure counts partition the processed records. -/
lemma countP_outcome (catalog : List PrisyncProduct)
    (upd : Nat → ℚ → Option String) (l : List LocalRecord) :
    l.countP (fun r => (recordOutcome catalog upd r).isNone) +
      l.countP (fun r => (recordOutcome catalog upd r).isSome) = l.length := by
  induction l with
  | nil => rfl
  | cons r rs ih =>
    rw [List.countP_cons, List.countP_cons]
    cases h : recordOutcome catalog upd r <;> simp [h] <;> omega

/-- Each failing record contributes exactly one error entry. -/
lemma length_filterMap_err (catalog : List PrisyncProduct)
    (upd : Nat → ℚ → Option String) (l : List LocalRecord) :
    (l.filterMap (errEntryFor catalog upd)).length =
      l.countP (fun r => (recordOutcome catalog upd r).isSome) := by
  induction l with
  | nil => rfl
  | cons r rs ih =>
    rw [List.countP_cons]
    cases h : recordOutcome catalog upd r with
    | none => simp [errEntryFor, h, ih]
    | some reason => simp [errEntryFor, h, ih]

/-- A write for one record does not change any other id's row. -/
lemma applyWrite_frame (st : Store) (r : LocalRecord) (now : String)
    (w : Option ℚ) (i : Nat) (h : i ≠ r.id) : applyWrite st r now w i = st i := by
  cases w with
  | none => rfl
  | some q => simp [applyWrite, h]

/-- Records whose ids all differ from `i` leave row `i` unchanged. -/
lemma applyWrites_frame (catalog : List PrisyncProduct)
    (upd : Nat → ℚ → Option String) (now : String)
    (records : List LocalRecord) (st : Store) (i : Nat)
    (h : ∀ r ∈ records, r.id ≠ i) :
    applyWrites catalog upd now st records i = st i := by
  induction records generalizing st with
  | nil => rfl
  | cons r rs ih =>
    have hstep : applyWrites catalog upd now st (r :: rs) =
        applyWrites catalog upd now
          (applyWrite st r now (recordWrite catalog upd r)) rs := rfl
    rw [hstep, ih _ (fun r' hr' => h r' (List.mem_cons_of_mem _ hr'))]
    exact applyWrite_frame st r now _ i
      (fun hi => h r (List.mem_cons_self _ _) hi.symm)

/-! ## Claim theorems: the reconciliation driver -/

/-- C4 (confirmed): over the N selected records the driver's report satisfies
`successful + failed = N`; its error list is exactly, and in encounter order,
one entry per failing record (each carrying that record's id, link, and
reason); and its length equals the failure count, so one record's failure
never prevents the remaining records from being processed and counted. -/
theorem c4_summary_report (allRecords : List LocalRecord)
    (catalog : List PrisyncProduct) (upd : Nat → ℚ → Option String)
    (now : String) (st0 : Store) :
    (updateDatabasePricesRun allRecords catalog upd now st0).1.successful +
        (updateDatabasePricesRun allRecords catalog upd now st0).1.failed =
      (allRecords.filter (fun r => r.product_link.isSome)).length ∧
    (updateDatabasePricesRun allRecords catalog upd now st0).1.errors =
      (allRecords.filter (fun r => r.product_link.isSome)).filterMap
        (errEntryFor catalog upd) ∧
    (updateDatabasePricesRun allRecords catalog upd now st0).1.errors.length =
      (updateDatabasePricesRun allRecords catalog upd now st0).1.failed := by
  have hrun := processRecords_go catalog upd now
    (allRecords.filter (fun r => r.product_link.isSome)) ⟨0, 0, []⟩ st0
  rw [updateDatabasePricesRun, processRecords, hrun]
  refine ⟨?_, by simp, ?_⟩
  · simpa using countP_outcome catalog upd _
  · simpa using length_filterMap_err catalog upd _

/-- C6 (confirmed): for a record occurring once in the processed list, its
stored row after the run is the pair (new price, timestamp) — both fields
written by the single accepted update — exactly when a usable (necessarily
positive) price was extracted and the store accepted the write; on any
per-record failure the row is exactly its initial value, so the stored price
is unchanged and the timestamp is not set. -/
theorem c6_write_atomicity (catalog : List PrisyncProduct)
    (upd : Nat → ℚ → Option String) (now : String) (st0 : Store)
    (l1 l2 : List LocalRecord) (r : LocalRecord)
    (h1 : ∀ r' ∈ l1, r'.id ≠ r.id) (h2 : ∀ r' ∈ l2, r'.id ≠ r.id) :
    ((processRecords catalog upd now (l1 ++ r :: l2) st0).2 r.id =
      match recordWrite catalog upd r with
      | some q => ⟨some q, some now⟩
      | none => st0 r.id) ∧
    ((recordWrite catalog upd r).isSome ↔ recordOutcome catalog upd r = none) ∧
    (∀ q, recordWrite catalog upd r = some q →
      0 < q ∧ upd r.id q = none ∧
      ∃ m, findMatchingPrisyncProduct r.bag_name catalog = .ok (some m) ∧
        m.price = q) := by
  refine ⟨?_, ?_, ?_⟩
  · have hstore : (processRecords catalog upd now (l1 ++ r :: l2) st0).2 =
        applyWrites catalog upd now st0 (l1 ++ r :: l2) := by
      rw [processRecords, processRecords_go]
    rw [hstore]
    have happ : applyWrites catalog upd now st0 (l1 ++ r :: l2) =
        applyWrites catalog upd now
          (applyWrite (applyWrites catalog upd now st0 l1) r now
            (recordWrite catalog upd r)) l2 := by
      rw [applyWrites, List.foldl_append]
      rfl
    rw [happ, applyWrites_frame catalog upd now l2 _ r.id h2]
    cases hw : recordWrite catalog upd r with
    | some q => simp [applyWrite]
    | none =>
      exact applyWrites_frame catalog upd now l1 st0 r.id h1
  · cases hm : findMatchingPrisyncProduct r.bag_name catalog with
    | error e => simp [recordWrite, recordOutcome, hm]
    | ok o =>
      cases o with
      | none => simp [recordWrite, recordOutcome, hm]
      | some m =>
        by_cases hp : m.price ≠ 0
        · cases hu : upd r.id m.price with
          | none => simp [recordWrite, recordOutcome, hm, hp, hu]
          | some e => simp [recordWrite, recordOutcome, hm, hp, hu]
        · simp [recordWrite, recordOutcome, hm, hp]
  · intro q hq
    cases hm : findMatchingPrisyncProduct r.bag_name catalog with
    | error e => simp [recordWrite, hm] at hq
    | ok o =>
      cases o with
      | none => simp [recordWrite, hm] at hq
      | some m =>
        simp only [recordWrite, hm] at hq
        by_cases hp : m.price ≠ 0
        · rw [if_pos hp] at hq
          cases hu : upd r.id m.price with
          | some e => rw [hu] at hq; cases hq
          | none =>
            rw [hu] at hq
            simp only [Option.some.injEq] at hq
            subst hq
            exact ⟨findMatching_pos _ _ _ hm, hu, ⟨m, rfl, rfl⟩⟩
        · rw [if_neg hp] at hq
          cases hq

/-- Witness for `c4_summary_report` is not needed (no hypotheses); witness
for `c6_write_atomicity`: a singleton run that matches `rec1` against the
priced product, with an accepting store, writes price and timestamp together. -/
theorem c6_witness :
    (∀ r' ∈ ([] : List LocalRecord), r'.id ≠ rec1.id) ∧
    (((processRecords [samename_priced] (fun _ _ => none) "2024-01-01"
          ([] ++ rec1 :: []) (fun _ => ⟨none, none⟩)).2 rec1.id =
        match recordWrite [samename_priced] (fun _ _ => none) rec1 with
        | some q => ⟨some q, some "2024-01-01"⟩
        | none => (fun _ => (⟨none, none⟩ : StoredRow)) rec1.id) ∧
      ((recordWrite [samename_priced] (fun _ _ => none) rec1).isSome ↔
        recordOutcome [samename_priced] (fun _ _ => none) rec1 = none) ∧
      (∀ q, recordWrite [samename_priced] (fun _ _ => none) rec1 = some q →
        0 < q ∧ (fun _ _ => (none : Option String)) rec1.id q = none ∧
        ∃ m, findMatchingPrisyncProduct rec1.bag_name [samename_priced] =
            .ok (some m) ∧ m.price = q)) := by
  have hnil : ∀ r' ∈ ([] : List LocalRecord), r'.id ≠ rec1.id := by
    intro r' hr'
    cases hr'
  exact ⟨hnil, c6_write_atomicity [samename_priced] (fun _ _ => none)
    "2024-01-01" (fun _ => ⟨none, none⟩) [] [] rec1 hnil hnil⟩

/-! ## Claim theorems: prices used for updates -/

/-- C1, counterexample. The claim says any written price is finite and
strictly positive and that negative or non-numeric extracted values are
never written. The URL-search variant's driver guards the write only with JS
truthiness (`if (currentPrice)`): a response whose `price` field is the
number −5 (or the non-numeric string `"unavailable"`) is truthy, so the
write IS issued, with that value stored verbatim. -/
theorem c1_counterexample :
    v1WriteFor ⟨.vNum (-5), .vUndef, .vUndef⟩ = some (.vNum (-5)) ∧
    jsFinitePositive (.vNum (-5)) = false ∧
    v1WriteFor ⟨.vStr "unavailable", .vNull, .vNull⟩ =
      some (.vStr "unavailable") ∧
    jsFinitePositive (.vStr "unavailable") = false := by decide

/-- C1, amended: in the name-matching variant (`src/sync-prices.js`) every
price the driver submits to the store is strictly positive, and zero,
negative, absent, or unparseable prices never produce a write. In the
URL-search variant (`src/unnamed/part_001`) a write is issued exactly when
the extracted value is truthy — zero, absent, and empty-string values are
never written, but the extracted value (which can be negative or a
non-numeric string) is written verbatim. -/
theorem c1_amended :
    (∀ (catalog : List PrisyncProduct) (r : LocalRecord) (q : ℚ),
        attemptedWrite catalog r = some q → 0 < q) ∧
    (∀ d : PrisyncData, truthy (extractCurrentPrice d) = false →
        v1WriteFor d = none) ∧
    (∀ (d : PrisyncData) (v : JsVal), v1WriteFor d = some v →
        truthy v = true ∧ v = extractCurrentPrice d) := by
  refine ⟨?_, ?_, ?_⟩
  · intro catalog r q h
    cases hm : findMatchingPrisyncProduct r.bag_name catalog with
    | error e => simp [attemptedWrite, hm] at h
    | ok o =>
      cases o with
      | none => simp [attemptedWrite, hm] at h
      | some m =>
        simp only [attemptedWrite, hm] at h
        by_cases hp : m.price ≠ 0
        · rw [if_pos hp] at h
          simp only [Option.some.injEq] at h
          rw [← h]
          exact findMatching_pos _ _ _ hm
        · rw [if_neg hp] at h
          cases h
  · intro d hf
    rw [v1WriteFor, hf]
    rfl
  · intro d v h
    rw [v1WriteFor] at h
    by_cases ht : truthy (extractCurrentPrice d)
    · rw [if_pos ht] at h
      simp only [Option.some.injEq] at h
      subst h
      exact ⟨ht, rfl⟩
    · rw [if_neg ht] at h
      cases h

/-- Witness for `c1_amended`: a concrete positive-priced attempt in the
summary variant, and an all-falsy response in the URL variant. -/
theorem c1_witness :
    attemptedWrite [samename_priced] rec1 = some 5 ∧ 0 < (5 : ℚ) ∧
    truthy (extractCurrentPrice ⟨.vNull, .vNull, .vNull⟩) = false ∧
    v1WriteFor ⟨.vNull, .vNull, .vNull⟩ = none :=
  ⟨rfl, c1_amended.1 [samename_priced] rec1 5 rfl, rfl,
   c1_amended.2.1 ⟨.vNull, .vNull, .vNull⟩ rfl⟩

/-! ## Claim theorems: the URL normalizer -/

/-- Deleting the denylisted names one by one filters out exactly the
parameters whose name is on the list. -/
lemma foldl_deleteParam (names : List String) (ps : List (String × String)) :
    names.foldl deleteParam ps =
      ps.filter (fun kv => !(names.contains kv.1)) := by
  induction names generalizing ps with
  | nil => simp
  | cons n ns ih =>
    rw [List.foldl_cons, ih]
    rw [deleteParam, List.filter_filter]
    congr 1
    funext kv
    by_cases h : kv.1 = n
    · simp [h]
    · simp [h]

/-- Deleting the tracking parameters is idempotent at the object level. -/
lemma cleanUrlObj_idem (u : UrlObj) : cleanUrlObj (cleanUrlObj u) = cleanUrlObj u := by
  unfold cleanUrlObj
  simp [foldl_deleteParam, List.filter_filter]

/-- C7 (confirmed): on an unparseable URL the normalizer returns the input
unchanged; on a parseable one it removes exactly the query parameters whose
name is on the fixed denylist, preserving the scheme, host, path, and every
other query parameter (with order and multiplicity). The platform's URL
parser/serializer pair is abstract, assumed only to round-trip. -/
theorem c7_normalize_frame {σ : Type} (parse : σ → Option UrlObj)
    (render : UrlObj → σ) (hrt : ∀ u, parse (render u) = some u) (url : σ) :
    (parse url = none → cleanProductUrl parse render url = url) ∧
    (∀ u, parse url = some u →
      parse (cleanProductUrl parse render url) = some (cleanUrlObj u) ∧
      (cleanUrlObj u).scheme = u.scheme ∧
      (cleanUrlObj u).host = u.host ∧
      (cleanUrlObj u).path = u.path ∧
      (cleanUrlObj u).searchParams =
        u.searchParams.filter (fun kv => !(trackingParams.contains kv.1))) := by
  constructor
  · intro h
    rw [cleanProductUrl, h]
  · intro u hu
    refine ⟨?_, rfl, rfl, rfl, ?_⟩
    · rw [cleanProductUrl, hu]
      dsimp only
      exact hrt _
    · simp only [cleanUrlObj]
      exact foldl_deleteParam trackingParams u.searchParams

/-- Witness for `c7_normalize_frame`, with the identity parse/render pair on
already-parsed URL objects and a URL carrying one denylisted and one
ordinary parameter. -/
theorem c7_witness :
    (∀ u : UrlObj, (fun x : Option UrlObj => x) (some u) = some u) ∧
    (fun x : Option UrlObj => x) (some urlFix) = some urlFix ∧
    ((fun x : Option UrlObj => x)
        (cleanProductUrl (fun x : Option UrlObj => x) some (some urlFix)) =
      some (cleanUrlObj urlFix) ∧
    (cleanUrlObj urlFix).scheme = urlFix.scheme ∧
    (cleanUrlObj urlFix).host = urlFix.host ∧
    (cleanUrlObj urlFix).path = urlFix.path ∧
    (cleanUrlObj urlFix).searchParams =
      urlFix.searchParams.filter (fun kv => !(trackingParams.contains kv.1))) :=
  ⟨fun u => rfl, rfl,
   (c7_normalize_frame (fun x : Option UrlObj => x) some (fun u => rfl)
     (some urlFix)).2 urlFix rfl⟩

/-- C9 (confirmed): the normalizer is idempotent — normalizing an already
normalized URL returns it unchanged (assuming the platform parser/serializer
round-trips). -/
theorem c9_normalize_idempotent {σ : Type} (parse : σ → Option UrlObj)
    (render : UrlObj → σ) (hrt : ∀ u, parse (render u) = some u) (url : σ) :
    cleanProductUrl parse render (cleanProductUrl parse render url) =
      cleanProductUrl parse render url := by
  cases h : parse url with
  | none =>
    have hin : cleanProductUrl parse render url = url := by
      rw [cleanProductUrl, h]
    rw [hin]
    exact hin
  | some u =>
    have hin : cleanProductUrl parse render url = render (cleanUrlObj u) := by
      rw [cleanProductUrl, h]
    rw [hin, cleanProductUrl]
    rw [hrt]
    dsimp only
    rw [cleanUrlObj_idem]

/-- Witness for `c9_normalize_idempotent` on a concrete URL object. -/
theorem c9_witness :
    (∀ u : UrlObj, (fun x : Option UrlObj => x) (some u) = some u) ∧
    cleanProductUrl (fun x : Option UrlObj => x) some
        (cleanProductUrl (fun x : Option UrlObj => x) some (some urlFix)) =
      cleanProductUrl (fun x : Option UrlObj => x) some (some urlFix) :=
  ⟨fun u => rfl,
   c9_normalize_idempotent (fun x : Option UrlObj => x) some (fun u => rfl)
     (some urlFix)⟩

end PriceSync
